import Mathlib

/-!
Shallow embedding of the gofigure configuration loader (src/gofigure.go).

The repository has two halves:

* a traversal engine: `walk` spawns a goroutine that calls `walkDir` on every
  root path in order; `walkDir` lists a directory with `ioutil.ReadDir`,
  recurses into subdirectory entries immediately and sends every non-directory
  entry's joined path over a buffered channel, guarded by a `select` between
  the send and a receive on the cancellation channel;

* a loader: `Loader.LoadRecursive` consumes the channel, filters paths with
  `decoder.CanDecode`, calls `Loader.LoadFile` on the matches, and applies the
  strict/lenient error policy; `defer close(cancelc)` closes the cancellation
  channel on every exit path.  `Loader.LoadFile` opens the file, and when the
  open fails it returns the error only in strict mode, otherwise it falls
  through and calls `decoder.Decode` on the (nil) handle.

The embedding below mirrors that control flow.  Concurrency is reduced to the
one observable source of nondeterminism: once the cancellation channel is
closed, the Go `select` in `walkDir` chooses arbitrarily between the send case
(when the channel has buffer space) and the receive-from-cancel case; an
oracle (a list of booleans, one consumed per `select` while cancelled) records
those choices.  While the cancellation channel is open only the send case can
fire, so the `select` is deterministic and consumes no oracle.
-/

namespace Gofigure

/-- A node of the filesystem tree seen by the traversal.  `file` is a
non-directory entry, `dir` a directory with its children in the order the
directory-listing primitive (`ioutil.ReadDir`) returns them, and
`unreadable` a directory entry whose listing fails (permission error,
removed concurrently, and so on). -/
inductive FSNode : Type where
  | file : FSNode
  | unreadable : FSNode
  | dir : List (String × FSNode) → FSNode
deriving Repr

/-- The `file.IsDir()` predicate of a directory entry: true for directories,
including ones whose own listing will fail. -/
def FSNode.isDir : FSNode → Bool
  | .file => false
  | .unreadable => true
  | .dir _ => true

/-- Outcome of the `select` in `walkDir` between sending `fullpath` on `ch`
and receiving from `cancelc`.  `true` means the send case fired (the path is
emitted), `false` means the receive case fired (the frame returns).  When the
cancellation channel is closed both cases can be ready, and Go chooses
between ready cases arbitrarily: the head of the oracle records that choice,
an exhausted oracle standing for the runs in which the send case is not ready
(buffer full, consumer gone) so only the receive can fire.  When the
cancellation channel is open the receive case can never fire, so the send is
the unique outcome and no oracle is consumed. -/
def selectEmit (cancelled : Bool) (o : List Bool) : Bool × List Bool :=
  if cancelled then
    match o with
    | b :: rest => (b, rest)
    | [] => (false, [])
  else (true, o)

mutual

/-- Embedding of `walkDir` (src/gofigure.go lines 109-135): list the
directory; on a listing error log and return; otherwise, for each entry in
listing order, recurse immediately when the entry is a directory, and
otherwise `select` between emitting the joined path and the cancellation
channel, returning from the whole frame when the cancellation case fires.
Returns the emitted paths in order together with the remaining oracle. -/
def walkDir (path : String) (node : FSNode) (cancelled : Bool) (o : List Bool) :
    List String × List Bool :=
  match node with
  | .file => ([], o)
  | .unreadable => ([], o)
  | .dir children => walkEntries path children cancelled o

/-- The entry loop of `walkDir` over the listed children. -/
def walkEntries (path : String) (entries : List (String × FSNode)) (cancelled : Bool)
    (o : List Bool) : List String × List Bool :=
  match entries with
  | [] => ([], o)
  | (name, child) :: rest =>
    let fullpath := path ++ "/" ++ name
    if child.isDir then
      let r := walkDir fullpath child cancelled o
      let r2 := walkEntries path rest cancelled r.2
      (r.1 ++ r2.1, r2.2)
    else
      let s := selectEmit cancelled o
      if s.1 then
        let r := walkEntries path rest cancelled s.2
        (fullpath :: r.1, r.2)
      else
        ([], s.2)

end

/-- Embedding of the goroutine body of `walk` (src/gofigure.go lines
139-153): call `walkDir` on each root path in the given order; a frame that
returns early on cancellation does not stop the loop over the remaining
roots. -/
def walkRoots (roots : List (String × FSNode)) (cancelled : Bool) (o : List Bool) :
    List String × List Bool :=
  match roots with
  | [] => ([], o)
  | (p, node) :: rest =>
    let r := walkDir p node cancelled o
    let r2 := walkRoots rest cancelled r.2
    (r.1 ++ r2.1, r2.2)

/-- Embedding of the `Decoder` interface.  `Decode` takes the handle obtained
from `os.Open` — `some path` for a successfully opened file (the decoder's
behaviour is a function of which file it reads), `none` for the nil handle
left by a failed open — and the current configuration, and returns the
(possibly partially) mutated configuration together with an optional error.
`CanDecode` is the pure path filter. -/
structure Decoder (C : Type) where
  Decode : Option String → C → C × Option String
  CanDecode : String → Bool

/-- Embedding of `Loader` (src/gofigure.go lines 39-45). -/
structure Loader (C : Type) where
  decoder : Decoder C
  StrictMode : Bool

/-- Embedding of `NewLoader`. -/
def NewLoader {C : Type} (d : Decoder C) (strict : Bool) : Loader C :=
  { decoder := d, StrictMode := strict }

/-- Observable result of one `LoadFile` call: the returned error, the
configuration after the call, and whether `decoder.Decode` was invoked. -/
structure LoadFileResult (C : Type) where
  err : Option String
  config : C
  decodeInvoked : Bool
deriving Repr

/-- Embedding of `Loader.LoadFile` (src/gofigure.go lines 84-105).
`openErr` gives the outcome of `os.Open` for each path: `some e` is an open
failure with error `e`, `none` a successful open.  The code opens the file;
if that errs and StrictMode is set it returns the open error; otherwise it
falls through — with `fp` the nil handle when the open failed — and calls
`decoder.Decode(fp, config)`; a decode error is returned only in strict
mode, and otherwise the call returns nil. -/
def Loader.LoadFile {C : Type} (l : Loader C) (openErr : String → Option String)
    (config : C) (path : String) : LoadFileResult C :=
  let openE := openErr path
  if openE.isSome && l.StrictMode then
    { err := openE, config := config, decodeInvoked := false }
  else
    let fp : Option String := if openE.isSome then none else some path
    let d := l.decoder.Decode fp config
    if d.2.isSome && l.StrictMode then
      { err := d.2, config := d.1, decodeInvoked := true }
    else
      { err := none, config := d.1, decodeInvoked := true }

/-- The consumer loop of `LoadRecursive` over the sequence of discovered
paths: for each path that `CanDecode` accepts, call `LoadFile`; on a non-nil
result in strict mode return it at once.  Returns the final error, the final
configuration, and the list of paths on which `LoadFile` was invoked, in
order. -/
def loadLoop {C : Type} (l : Loader C) (openErr : String → Option String) :
    C → List String → Option String × C × List String
  | config, [] => (none, config, [])
  | config, path :: rest =>
    if l.decoder.CanDecode path then
      let r := l.LoadFile openErr config path
      if r.err.isSome && l.StrictMode then
        (r.err, r.config, [path])
      else
        let t := loadLoop l openErr r.config rest
        (t.1, t.2.1, path :: t.2.2)
    else
      loadLoop l openErr config rest

/-- Observable result of one `LoadRecursive` call.  `cancelInvoked` records
whether the deferred `close(cancelc)` ran before the call returned. -/
structure LoadRecResult (C : Type) where
  err : Option String
  config : C
  loaded : List String
  cancelInvoked : Bool
deriving Repr

/-- Embedding of `Loader.LoadRecursive` (src/gofigure.go lines 58-79): start
the traversal over the roots, consume the discovered paths in traversal
order through the policy loop, and run the deferred `close(cancelc)` on
every exit path, early strict abort included.  The consumer loop sees the
paths of the uncancelled traversal (while the consumer is still reading, the
cancellation channel is open, so the producer-side `select` deterministically
emits; the paths produced after a strict abort are never read). -/
def Loader.LoadRecursive {C : Type} (l : Loader C) (openErr : String → Option String)
    (config : C) (roots : List (String × FSNode)) : LoadRecResult C :=
  let paths := (walkRoots roots false []).1
  let t := loadLoop l openErr config paths
  { err := t.1, config := t.2.1, loaded := t.2.2, cancelInvoked := true }

mutual

/-- Specification-side enumeration, following the spec's words (§4.1): the
non-directory entries reachable from a node, depth-first pre-order, entries
in listing order, a directory entry recursed into immediately before its
remaining siblings, directories themselves never emitted, a directory that
cannot be listed contributing nothing. -/
def preorderFiles (path : String) (node : FSNode) : List String :=
  match node with
  | .file => []
  | .unreadable => []
  | .dir children => preorderList path children

/-- Specification-side enumeration of a directory's listed entries. -/
def preorderList (path : String) (entries : List (String × FSNode)) : List String :=
  match entries with
  | [] => []
  | (name, child) :: rest =>
    (if child.isDir then preorderFiles (path ++ "/" ++ name) child
     else [path ++ "/" ++ name]) ++ preorderList path rest

end

/-- Specification-side enumeration over the roots, in the given order. -/
def preorderRoots (roots : List (String × FSNode)) : List String :=
  match roots with
  | [] => []
  | (p, node) :: rest => preorderFiles p node ++ preorderRoots rest

/-- A concrete decoder used by the concrete instances below: it accepts
every path; decoding an opened file bumps a counter configuration, except
that the file at path r/bad fails to decode; decoding the nil handle left by
a failed open fails the way a read from a nil file handle does. -/
def demoDecoder : Decoder Nat :=
  { Decode := fun h c =>
      match h with
      | some p => if p = "r/bad" then (c, some "boom") else (c + 1, none)
      | none => (c, some "invalid argument")
    CanDecode := fun _ => true }

/-- A decoder that rejects every path. -/
def rejectDecoder : Decoder Nat :=
  { Decode := fun _ c => (c + 1, none)
    CanDecode := fun _ => false }

/-- A concrete root: a directory with three decodable files, the middle one
the bad one. -/
def demoRoots : List (String × FSNode) :=
  [("r", FSNode.dir [("good", FSNode.file), ("bad", FSNode.file), ("late", FSNode.file)])]

/-- An open primitive for which every open succeeds. -/
def openAlways : String → Option String := fun _ => none

/-- An open primitive for which every open fails. -/
def openFailsAll : String → Option String := fun _ => some "open failed"

/-- The two-root example tree of the spec's testable properties: root A with
file a1.yaml and subdirectory sub containing a2.yaml, root B with file
b1.yaml. -/
def exampleRoots : List (String × FSNode) :=
  [("A", FSNode.dir [("a1.yaml", FSNode.file), ("sub", FSNode.dir [("a2.yaml", FSNode.file)])]),
   ("B", FSNode.dir [("b1.yaml", FSNode.file)])]

mutual

/-- While the cancellation channel is open, the traversal of a node is
deterministic: it emits exactly the specification-side pre-order file list
and consumes no oracle. -/
theorem walkDir_no_cancel (path : String) (node : FSNode) (o : List Bool) :
    walkDir path node false o = (preorderFiles path node, o) :=
  match node with
  | .file => rfl
  | .unreadable => rfl
  | .dir children => by
    rw [walkDir, preorderFiles, walkEntries_no_cancel path children o]

/-- Entry-loop version of `walkDir_no_cancel`. -/
theorem walkEntries_no_cancel (path : String) (entries : List (String × FSNode))
    (o : List Bool) : walkEntries path entries false o = (preorderList path entries, o) :=
  match entries with
  | [] => rfl
  | (name, child) :: rest => by
    rw [walkEntries, preorderList]
    by_cases hd : child.isDir
    · simp only [hd, if_true]
      rw [walkDir_no_cancel (path ++ "/" ++ name) child o]
      rw [walkEntries_no_cancel path rest o]
    · simp only [hd, if_false, Bool.false_eq_true]
      rw [show selectEmit false o = (true, o) from rfl]
      simp only [if_true]
      rw [walkEntries_no_cancel path rest o]
      simp

end

/-- Root-loop version of `walkDir_no_cancel`: the uncancelled traversal over
the roots emits the specification-side pre-order list and consumes no
oracle. -/
theorem walkRoots_no_cancel (roots : List (String × FSNode)) (o : List Bool) :
    walkRoots roots false o = (preorderRoots roots, o) := by
  induction roots with
  | nil => rfl
  | cons r rest ih =>
    obtain ⟨p, node⟩ := r
    rw [walkRoots, preorderRoots, walkDir_no_cancel p node o, ih]

mutual

/-- With the cancellation channel closed and an exhausted oracle — the runs
in which the send case of the `select` is never ready again, so every
`select` fires the cancellation case — a node's traversal emits nothing. -/
theorem walkDir_cancelled_empty (path : String) (node : FSNode) :
    walkDir path node true [] = ([], []) :=
  match node with
  | .file => rfl
  | .unreadable => rfl
  | .dir children => by
    rw [walkDir, walkEntries_cancelled_empty path children]

/-- Entry-loop version of `walkDir_cancelled_empty`. -/
theorem walkEntries_cancelled_empty (path : String) (entries : List (String × FSNode)) :
    walkEntries path entries true [] = ([], []) :=
  match entries with
  | [] => rfl
  | (name, child) :: rest => by
    rw [walkEntries]
    by_cases hd : child.isDir
    · simp only [hd, if_true]
      rw [walkDir_cancelled_empty (path ++ "/" ++ name) child]
      rw [walkEntries_cancelled_empty path rest]
      rfl
    · simp [hd, selectEmit]

end

/-- Root-loop version of `walkDir_cancelled_empty`. -/
theorem walkRoots_cancelled_empty (roots : List (String × FSNode)) :
    walkRoots roots true [] = ([], []) := by
  induction roots with
  | nil => rfl
  | cons r rest ih =>
    obtain ⟨p, node⟩ := r
    rw [walkRoots, walkDir_cancelled_empty p node, ih]
    rfl

/-- An unreadable directory entry contributes nothing to the entry loop and
consumes no oracle: splicing one into a listing leaves the traversal
unchanged. -/
theorem walkEntries_unreadable (path name : String) (pre post : List (String × FSNode))
    (c : Bool) (o : List Bool) :
    walkEntries path (pre ++ (name, FSNode.unreadable) :: post) c o
      = walkEntries path (pre ++ post) c o := by
  induction pre generalizing o with
  | nil =>
    rw [List.nil_append, List.nil_append, walkEntries]
    simp only [FSNode.isDir, if_true]
    rw [show walkDir (path ++ "/" ++ name) FSNode.unreadable c o = ([], o) from rfl]
    rfl
  | cons entry pre ih =>
    obtain ⟨n, child⟩ := entry
    rw [List.cons_append]
    simp only [walkEntries]
    by_cases hd : child.isDir
    · simp only [hd, if_true]
      rw [ih]
      rfl
    · simp only [hd, Bool.false_eq_true, if_false]
      by_cases hs : (selectEmit c o).1
      · simp only [hs, if_true]
        rw [ih]
        rfl
      · simp only [hs, Bool.false_eq_true, if_false]

/-- An unreadable root contributes nothing to the root loop. -/
theorem walkRoots_unreadable (p : String) (pre post : List (String × FSNode))
    (c : Bool) (o : List Bool) :
    walkRoots (pre ++ (p, FSNode.unreadable) :: post) c o = walkRoots (pre ++ post) c o := by
  induction pre generalizing o with
  | nil =>
    rw [List.nil_append, List.nil_append, walkRoots]
    rw [show walkDir p FSNode.unreadable c o = ([], o) from rfl]
    rfl
  | cons r pre ih =>
    obtain ⟨q, node⟩ := r
    rw [List.cons_append]
    simp only [walkRoots]
    rw [ih]
    rfl

/-- In lenient mode `LoadFile` returns nil on every input: both the open
error and the decode error are swallowed after being logged. -/
theorem LoadFile_lenient_err {C : Type} (l : Loader C) (h : l.StrictMode = false)
    (openErr : String → Option String) (cfg : C) (p : String) :
    (l.LoadFile openErr cfg p).err = none := by
  unfold Loader.LoadFile
  rw [h]
  simp

/-- In lenient mode the policy loop never aborts: it returns nil and invokes
`LoadFile` on exactly the paths the decoder accepts, in order. -/
theorem loadLoop_lenient {C : Type} (l : Loader C) (h : l.StrictMode = false)
    (openErr : String → Option String) (ps : List String) (cfg : C) :
    (loadLoop l openErr cfg ps).1 = none ∧
    (loadLoop l openErr cfg ps).2.2 = ps.filter l.decoder.CanDecode := by
  induction ps generalizing cfg with
  | nil => exact ⟨rfl, rfl⟩
  | cons p rest ih =>
    by_cases hc : l.decoder.CanDecode p = true
    · have habort : ((l.LoadFile openErr cfg p).err.isSome && l.StrictMode) = false := by
        rw [h, Bool.and_false]
      rw [loadLoop]
      simp only [hc, if_true, habort, Bool.false_eq_true, if_false]
      obtain ⟨ih1, ih2⟩ := ih ((l.LoadFile openErr cfg p).config)
      refine ⟨ih1, ?_⟩
      rw [List.filter_cons_of_pos hc, ih2]
    · have hc2 : l.decoder.CanDecode p = false := by
        cases hcd : l.decoder.CanDecode p
        · rfl
        · exact absurd hcd hc
      rw [loadLoop]
      simp only [hc2, Bool.false_eq_true, if_false]
      obtain ⟨ih1, ih2⟩ := ih cfg
      refine ⟨ih1, ?_⟩
      rw [List.filter_cons_of_neg, ih2]
      simp [hc2]

/-- When the decoder rejects every path of the sequence, the policy loop
does nothing: no error, no `LoadFile` call, configuration untouched. -/
theorem loadLoop_skip_all {C : Type} (l : Loader C) (openErr : String → Option String)
    (ps : List String) (cfg : C) (hall : ∀ p ∈ ps, l.decoder.CanDecode p = false) :
    loadLoop l openErr cfg ps = (none, cfg, []) := by
  induction ps with
  | nil => rfl
  | cons p rest ih =>
    have hp : l.decoder.CanDecode p = false := hall p (List.mem_cons_self p rest)
    rw [loadLoop]
    simp only [hp, Bool.false_eq_true, if_false]
    exact ih (fun q hq => hall q (List.mem_cons_of_mem p hq))

/-- In strict mode, an error returned by `LoadFile` is the open error when
the open failed, and otherwise the decode error of the opened handle. -/
theorem LoadFile_strict_err_source {C : Type} (l : Loader C) (hstrict : l.StrictMode = true)
    (openErr : String → Option String) (cfg : C) (p e : String)
    (h : (l.LoadFile openErr cfg p).err = some e) :
    openErr p = some e ∨
      (openErr p = none ∧ (l.decoder.Decode (some p) cfg).2 = some e) := by
  unfold Loader.LoadFile at h
  cases ho : openErr p with
  | some e0 =>
    rw [ho] at h
    simp only [Option.isSome_some, hstrict, Bool.and_self, if_true] at h
    exact Or.inl h
  | none =>
    rw [ho] at h
    simp only [Option.isSome_none, hstrict, Bool.false_and, Bool.false_eq_true,
      if_false] at h
    by_cases hd : (l.decoder.Decode (some p) cfg).2.isSome = true
    · simp only [hd, hstrict, Bool.and_self, if_true] at h
      exact Or.inr ⟨rfl, h⟩
    · simp only [hd, Bool.false_eq_true, if_false] at h
      exact absurd h (by simp)

/-- In strict mode, once the loop has consumed an error-free prefix and the
next accepted path fails in `LoadFile`, the loop aborts there: it returns
that error, and the paths after the failing one are never passed to
`LoadFile`. -/
theorem loadLoop_strict_abort {C : Type} (l : Loader C) (hstrict : l.StrictMode = true)
    (openErr : String → Option String) (pre : List String) (cfg : C) (p : String)
    (post : List String) (e : String)
    (hpre : (loadLoop l openErr cfg pre).1 = none)
    (hp : l.decoder.CanDecode p = true)
    (hfail : (l.LoadFile openErr (loadLoop l openErr cfg pre).2.1 p).err = some e) :
    loadLoop l openErr cfg (pre ++ p :: post) =
      (some e, (l.LoadFile openErr (loadLoop l openErr cfg pre).2.1 p).config,
       (loadLoop l openErr cfg pre).2.2 ++ [p]) := by
  induction pre generalizing cfg with
  | nil =>
    rw [List.nil_append, loadLoop]
    simp only [loadLoop] at hfail ⊢
    simp only [hp, if_true, hfail, Option.isSome_some, hstrict, Bool.and_self, if_true]
    rfl
  | cons q pre ih =>
    by_cases hq : l.decoder.CanDecode q = true
    · have hr : (l.LoadFile openErr cfg q).err = none := by
        by_contra hne
        have hsome : (l.LoadFile openErr cfg q).err.isSome = true := by
          cases he : (l.LoadFile openErr cfg q).err
          · exact absurd he hne
          · rfl
        rw [loadLoop] at hpre
        simp only [hq, if_true, hsome, hstrict, Bool.and_self, if_true] at hpre
        rw [hpre] at hsome
        exact Bool.false_ne_true hsome
      have hcond : ((l.LoadFile openErr cfg q).err.isSome && l.StrictMode) = false := by
        rw [hr]
        rfl
      rw [loadLoop] at hpre hfail ⊢
      simp only [hq, if_true, hcond, Bool.false_eq_true, if_false] at hpre hfail ⊢
      rw [List.cons_append, loadLoop]
      simp only [hq, if_true, hcond, Bool.false_eq_true, if_false]
      rw [ih ((l.LoadFile openErr cfg q).config) hpre hfail]
      rfl
    · have hq2 : l.decoder.CanDecode q = false := by
        cases hcd : l.decoder.CanDecode q
        · rfl
        · exact absurd hcd hq
      rw [loadLoop] at hpre hfail ⊢
      simp only [hq2, Bool.false_eq_true, if_false] at hpre hfail ⊢
      rw [List.cons_append, loadLoop]
      simp only [hq2, Bool.false_eq_true, if_false]
      exact ih cfg hpre hfail

/-- C1: in strict mode, the first error (open failure or decode failure) on
a matching file makes `LoadRecursive` return that error verbatim
immediately: once the consumer loop has consumed an error-free prefix of the
discovered paths and the next accepted path fails in `LoadFile`, the
returned error equals the failing open error (when the open failed) or the
failing decode error, and no path after the failing one is ever passed to
`LoadFile`, so no later path is opened or decoded. -/
theorem strict_first_error_aborts : ∀ (C : Type) (l : Loader C)
    (openErr : String → Option String) (cfg : C) (roots : List (String × FSNode))
    (pre post : List String) (p e : String),
    l.StrictMode = true →
    (walkRoots roots false []).1 = pre ++ p :: post →
    (loadLoop l openErr cfg pre).1 = none →
    l.decoder.CanDecode p = true →
    (l.LoadFile openErr (loadLoop l openErr cfg pre).2.1 p).err = some e →
    (l.LoadRecursive openErr cfg roots).err = some e ∧
    (l.LoadRecursive openErr cfg roots).loaded = (loadLoop l openErr cfg pre).2.2 ++ [p] ∧
    (openErr p = some e ∨
      (openErr p = none ∧
        (l.decoder.Decode (some p) (loadLoop l openErr cfg pre).2.1).2 = some e)) := by
  intro C l openErr cfg roots pre post p e hstrict hsplit hpre hp hfail
  have habort := loadLoop_strict_abort l hstrict openErr pre cfg p post e hpre hp hfail
  simp only [Loader.LoadRecursive]
  rw [hsplit, habort]
  exact ⟨rfl, rfl, LoadFile_strict_err_source l hstrict openErr _ p e hfail⟩

/-- Witness for `strict_first_error_aborts`: a strict loader over the three
demo files, the second of which fails to decode with the error boom. -/
theorem strict_first_error_aborts_witness :
    (walkRoots demoRoots false []).1 = ["r/good"] ++ "r/bad" :: ["r/late"] ∧
    (((NewLoader demoDecoder true).LoadRecursive openAlways 0 demoRoots).err = some "boom" ∧
     ((NewLoader demoDecoder true).LoadRecursive openAlways 0 demoRoots).loaded
       = (loadLoop (NewLoader demoDecoder true) openAlways 0 ["r/good"]).2.2 ++ ["r/bad"] ∧
     (openAlways "r/bad" = some "boom" ∨
       (openAlways "r/bad" = none ∧
         ((NewLoader demoDecoder true).decoder.Decode (some "r/bad")
           (loadLoop (NewLoader demoDecoder true) openAlways 0 ["r/good"]).2.1).2
           = some "boom"))) :=
  ⟨by decide,
   strict_first_error_aborts Nat (NewLoader demoDecoder true) openAlways 0 demoRoots
     ["r/good"] ["r/late"] "r/bad" "boom" rfl (by decide) (by decide) rfl (by decide)⟩

/-- C2: in lenient mode `LoadRecursive` always returns nil: whatever the
open and decode failures among the discovered files, the loop never aborts,
it completes the whole traversal, and `LoadFile` is invoked on exactly the
discovered paths the decoder accepts, in traversal order. -/
theorem lenient_always_nil : ∀ (C : Type) (l : Loader C)
    (openErr : String → Option String) (cfg : C) (roots : List (String × FSNode)),
    l.StrictMode = false →
    (l.LoadRecursive openErr cfg roots).err = none ∧
    (l.LoadRecursive openErr cfg roots).loaded
      = ((walkRoots roots false []).1).filter l.decoder.CanDecode := by
  intro C l openErr cfg roots h
  unfold Loader.LoadRecursive
  exact loadLoop_lenient l h openErr _ cfg

/-- Witness for `lenient_always_nil`: the lenient loader over the demo
files, the second of which fails to decode, still returns nil and visits all
three files. -/
theorem lenient_always_nil_witness :
    (NewLoader demoDecoder false).StrictMode = false ∧
    (((NewLoader demoDecoder false).LoadRecursive openAlways 0 demoRoots).err = none ∧
     ((NewLoader demoDecoder false).LoadRecursive openAlways 0 demoRoots).loaded
       = ((walkRoots demoRoots false []).1).filter
           (NewLoader demoDecoder false).decoder.CanDecode) :=
  ⟨rfl, lenient_always_nil Nat (NewLoader demoDecoder false) openAlways 0 demoRoots rfl⟩

/-- C3 counterexample: the claim that `Decode` is never invoked when the
open fails is false on the code.  With a lenient loader and an open
primitive that fails on the path cfg, `LoadFile` still invokes
`decoder.Decode` (on the nil handle the failed open left behind), exactly as
the fall-through after the strict-only early return in the source does. -/
theorem open_failure_still_decodes_cex :
    openFailsAll "cfg" = some "open failed" ∧
    (NewLoader demoDecoder false).StrictMode = false ∧
    ((NewLoader demoDecoder false).LoadFile openFailsAll 0 "cfg").decodeInvoked = true :=
  ⟨rfl, rfl, rfl⟩

/-- C3 amended: when opening fails, in strict mode `LoadFile` returns the
open error without invoking `Decode`; in lenient mode `Decode` is invoked
anyway, on the nil handle left by the failed open, its result is the
decoder's answer on that invalid handle, and `LoadFile` returns nil. -/
theorem open_failure_decode_policy : ∀ (C : Type) (l : Loader C)
    (openErr : String → Option String) (cfg : C) (p e : String),
    openErr p = some e →
    (l.StrictMode = true →
      l.LoadFile openErr cfg p
        = { err := some e, config := cfg, decodeInvoked := false }) ∧
    (l.StrictMode = false →
      (l.LoadFile openErr cfg p).decodeInvoked = true ∧
      (l.LoadFile openErr cfg p).config = (l.decoder.Decode none cfg).1 ∧
      (l.LoadFile openErr cfg p).err = none) := by
  intro C l openErr cfg p e ho
  constructor
  · intro hs
    unfold Loader.LoadFile
    rw [ho, hs]
    rfl
  · intro hs
    unfold Loader.LoadFile
    rw [ho, hs]
    simp

/-- Witness for `open_failure_decode_policy` at the lenient demo loader and
the always-failing open primitive. -/
theorem open_failure_decode_policy_witness :
    openFailsAll "cfg" = some "open failed" ∧
    (((NewLoader demoDecoder false).StrictMode = true →
       (NewLoader demoDecoder false).LoadFile openFailsAll 0 "cfg"
         = { err := some "open failed", config := 0, decodeInvoked := false }) ∧
     ((NewLoader demoDecoder false).StrictMode = false →
       ((NewLoader demoDecoder false).LoadFile openFailsAll 0 "cfg").decodeInvoked = true ∧
       ((NewLoader demoDecoder false).LoadFile openFailsAll 0 "cfg").config
         = ((NewLoader demoDecoder false).decoder.Decode none 0).1 ∧
       ((NewLoader demoDecoder false).LoadFile openFailsAll 0 "cfg").err = none)) :=
  ⟨rfl, open_failure_decode_policy Nat (NewLoader demoDecoder false) openFailsAll 0
    "cfg" "open failed" rfl⟩

/-- C4: the uncancelled traversal emits exactly the non-directory entries
reachable from a node, in depth-first pre-order — entries in listing order,
a directory entry recursed into immediately before its remaining siblings,
directories never emitted — and on the two-root example tree the emitted
sequence is A/a1.yaml, A/sub/a2.yaml, B/b1.yaml, roots in the given
order. -/
theorem traversal_preorder :
    (∀ (path : String) (node : FSNode) (o : List Bool),
      walkDir path node false o = (preorderFiles path node, o)) ∧
    (walkRoots exampleRoots false []).1
      = ["A/a1.yaml", "A/sub/a2.yaml", "B/b1.yaml"] :=
  ⟨walkDir_no_cancel, by decide⟩

/-- C5: a directory that cannot be listed is a local recovery: spliced into
any listing it contributes no emitted file and the loop continues with the
remaining sibling entries unchanged, and as a root it contributes nothing
while `LoadRecursive` over the remaining roots is entirely unaffected — in
particular such a failure is never returned as an error of
`LoadRecursive`. -/
theorem unreadable_dir_local_recovery :
    (∀ (path name : String) (pre post : List (String × FSNode)) (c : Bool) (o : List Bool),
      walkEntries path (pre ++ (name, FSNode.unreadable) :: post) c o
        = walkEntries path (pre ++ post) c o) ∧
    (∀ (C : Type) (l : Loader C) (openErr : String → Option String) (cfg : C)
      (p : String) (pre post : List (String × FSNode)),
      l.LoadRecursive openErr cfg (pre ++ (p, FSNode.unreadable) :: post)
        = l.LoadRecursive openErr cfg (pre ++ post)) := by
  constructor
  · exact walkEntries_unreadable
  · intro C l openErr cfg p pre post
    unfold Loader.LoadRecursive
    rw [walkRoots_unreadable]

/-- C6: the deferred close of the cancellation channel runs before
`LoadRecursive` returns on every exit path — normal exhaustion of the path
sequence and strict-mode abort alike. -/
theorem cancel_invoked_on_every_exit : ∀ (C : Type) (l : Loader C)
    (openErr : String → Option String) (cfg : C) (roots : List (String × FSNode)),
    (l.LoadRecursive openErr cfg roots).cancelInvoked = true :=
  fun _ _ _ _ _ => rfl

/-- C7 counterexample: the claim that no further path is emitted once the
cancellation signal is invoked is false on the code.  With the cancellation
channel closed before the traversal of a one-file directory starts, the
`select` between the buffered send and the cancellation receive has both
cases ready and Go may pick the send: in the modelled execution in which it
does (oracle true), the path r/f.yaml is still emitted after
cancellation. -/
theorem cancel_may_still_emit_cex :
    (walkRoots [("r", FSNode.dir [("f.yaml", FSNode.file)])] true [true]).1
      = ["r/f.yaml"] := by
  decide

/-- C7 amended: the traversal checks the cancellation signal only
immediately before emitting each discovered path — there is no check before
recursing into a subdirectory — and the check is a `select` that picks
arbitrarily among ready cases, so paths may still be emitted after
cancellation while the send case stays ready; when a check fires the
cancellation case the current directory frame returns at once without
emitting its remaining entries, and in the executions where every check
after cancellation fires the cancellation case (exhausted oracle) the
traversal emits no further path at all. -/
theorem cancel_observed_at_emit :
    (∀ (roots : List (String × FSNode)), (walkRoots roots true []).1 = []) ∧
    (∀ (path name : String) (rest : List (String × FSNode)) (o : List Bool),
      walkEntries path ((name, FSNode.file) :: rest) true (false :: o) = ([], o)) := by
  constructor
  · intro roots
    rw [walkRoots_cancelled_empty]
  · intro path name rest o
    rfl

/-- C8: if the decoder rejects every discovered path, `LoadRecursive`
returns nil, never invokes `LoadFile` on any path, and leaves the target
configuration completely unmodified. -/
theorem reject_all_unmodified : ∀ (C : Type) (l : Loader C)
    (openErr : String → Option String) (cfg : C) (roots : List (String × FSNode)),
    (∀ p ∈ (walkRoots roots false []).1, l.decoder.CanDecode p = false) →
    l.LoadRecursive openErr cfg roots
      = { err := none, config := cfg, loaded := [], cancelInvoked := true } := by
  intro C l openErr cfg roots hall
  simp only [Loader.LoadRecursive]
  rw [loadLoop_skip_all l openErr _ cfg hall]

/-- Witness for `reject_all_unmodified`: the all-rejecting decoder over the
demo files. -/
theorem reject_all_unmodified_witness :
    (∀ p ∈ (walkRoots demoRoots false []).1,
      (NewLoader rejectDecoder true).decoder.CanDecode p = false) ∧
    (NewLoader rejectDecoder true).LoadRecursive openAlways 0 demoRoots
      = { err := none, config := 0, loaded := [], cancelInvoked := true } :=
  ⟨by decide,
   reject_all_unmodified Nat (NewLoader rejectDecoder true) openAlways 0 demoRoots
     (by decide)⟩

/-- C9: the uncancelled traversal is deterministic: over a fixed root list
and a fixed filesystem tree, two runs — whatever their schedules, modelled
by the oracles — emit identical path sequences. -/
theorem traversal_deterministic : ∀ (roots : List (String × FSNode)) (o1 o2 : List Bool),
    (walkRoots roots false o1).1 = (walkRoots roots false o2).1 := by
  intro roots o1 o2
  rw [walkRoots_no_cancel, walkRoots_no_cancel]

/-- C10: a root path that refers to a regular file contributes nothing: the
directory listing of the file fails, the root frame returns without emitting
anything, and the remaining roots proceed exactly as if the file root were
absent — the file itself is never discovered. -/
theorem file_root_never_emitted : ∀ (p : String) (rest : List (String × FSNode))
    (c : Bool) (o : List Bool),
    walkDir p FSNode.file c o = ([], o) ∧
    walkRoots ((p, FSNode.file) :: rest) c o = walkRoots rest c o :=
  fun _ _ _ _ => ⟨rfl, rfl⟩

end Gofigure
